import Mathlib

/-!
Verification of the chunked-corpus summarization pipeline of repo-sage
(`pkg/llm/openai.go`).  Go strings are modelled as lists of characters
(`Str`); all inputs in scope are ASCII, where Go's byte length and byte
slicing agree with character length and character slicing.
-/

namespace RepoSage

/-- Go strings, modelled as lists of characters. -/
abbrev Str := List Char

/-- Embedding of `strings.Split(content, "\n")`: the maximal run of
segments separated by newline characters.  `strings.Split` of the empty
string is the singleton list holding the empty string. -/
def splitLines : Str → List Str
  | [] => [[]]
  | c :: rest =>
    match splitLines rest with
    | [] => [[]]
    | h :: t => if c = '\n' then [] :: h :: t else (c :: h) :: t

/-- Embedding of the byte-window loop in `splitLongContent`:
`for i := 0; i < len(line); i += maxSize { ... line[i:min(i+maxSize,len(line))] }`.
The loop body runs once for each multiple `i*m` of `m` below `line.length`,
that is `⌈line.length / m⌉` times, and the window at iteration `i` is
`line[i*m : min(i*m+m, len)] = (line.drop (i*m)).take m`.  For `maxSize = 0`
the Go loop would not terminate; the pipeline only calls it with the
positive constant 1500, and Nat division by zero makes the model return `[]`
in that vacuous case. -/
def chunkEvery (m : Nat) (line : Str) : List Str :=
  (List.range ((line.length + m - 1) / m)).map fun i => (line.drop (i * m)).take m

/-- Instrumented embedding of the per-line loop of `splitLongContent`
(`openai.go`).  `cur` is the `currentChunk` builder.  Each emitted chunk is
tagged with `none` when it was flushed from the accumulating buffer and with
`some line` when it is a byte window produced by the oversized-line fallback
for `line`. -/
def slcLoopT (maxSize : Nat) : List Str → Str → List (Option Str × Str)
  | [], cur => if 0 < cur.length then [(none, cur)] else []
  | line :: rest, cur =>
    if maxSize < cur.length + line.length + 1 then
      if maxSize < line.length then
        (if 0 < cur.length then [(none, cur)] else []) ++
          (chunkEvery maxSize line).map (fun w => (some line, w)) ++
          slcLoopT maxSize rest []
      else
        (if 0 < cur.length then [(none, cur)] else []) ++ slcLoopT maxSize rest line
    else
      slcLoopT maxSize rest (if 0 < cur.length then cur ++ '\n' :: line else line)

/-- Instrumented embedding of `splitLongContent(content, maxSize)`. -/
def splitLongContentT (content : Str) (maxSize : Nat) : List (Option Str × Str) :=
  slcLoopT maxSize (splitLines content) []

/-- Embedding of `splitLongContent(content, maxSize)`: the chunks without
the instrumentation tags. -/
def splitLongContent (content : Str) (maxSize : Nat) : List Str :=
  (splitLongContentT content maxSize).map Prod.snd

/-- The anonymous `fileInfo` struct of `Analyze` in `openai.go`. -/
structure fileInfo where
  name : Str
  content : Str
deriving DecidableEq

/-- Embedding of `fmt.Sprintf("File: %s\n\n%s\n\n", file.name, file.content)`. -/
def renderFile (f : fileInfo) : Str :=
  "File: ".data ++ f.name ++ "\n\n".data ++ f.content ++ "\n\n".data

/-- Instrumented embedding of the chunking loop of the detailed path of
`Analyze` (`openai.go`).  Tags are as in `slcLoopT`.  The
`progress("Processing files", ...)` callback fired at the top of each
iteration does not read or write the chunking state and is modelled
separately (`processingEvents`). -/
def chunkLoopT (maxChunkSize : Nat) : List fileInfo → Str → List (Option Str × Str)
  | [], cur => if 0 < cur.length then [(none, cur)] else []
  | f :: rest, cur =>
    if maxChunkSize < cur.length + (renderFile f).length then
      if maxChunkSize < (renderFile f).length then
        (if 0 < cur.length then [(none, cur)] else []) ++
          splitLongContentT (renderFile f) maxChunkSize ++ chunkLoopT maxChunkSize rest []
      else
        (if 0 < cur.length then [(none, cur)] else []) ++ chunkLoopT maxChunkSize rest (renderFile f)
    else
      chunkLoopT maxChunkSize rest (cur ++ renderFile f)

/-- The detailed-analysis chunker with instrumentation tags. -/
def analyzeChunksT (files : List fileInfo) (maxChunkSize : Nat) : List (Option Str × Str) :=
  chunkLoopT maxChunkSize files []

/-- The detailed-analysis chunker of `Analyze`: the ordered chunks handed to
the per-chunk summarization loop. -/
def analyzeChunks (files : List fileInfo) (maxChunkSize : Nat) : List Str :=
  (analyzeChunksT files maxChunkSize).map Prod.snd

/-! ### File selection (the `sort.Slice` call of the detailed path) -/

/-- Embedding of the entry-point test of the comparison closure:
`strings.Contains(name, "main.") || strings.Contains(name, "index.")`. -/
def isEntryName (name : Str) : Bool :=
  decide ("main.".data <:+: name) || decide ("index.".data <:+: name)

/-- Embedding of the `sort.Slice` comparison closure of `Analyze`:
entry-point-named files first, then shorter content first. -/
def fileLess (a b : fileInfo) : Bool :=
  if isEntryName a.name ≠ isEntryName b.name then isEntryName a.name
  else decide (a.content.length < b.content.length)

/-- Contract of `sort.Slice(files, less)` from the Go standard library: the
result is a permutation of the input that is sorted with respect to the
comparison closure, i.e. has no inversion (`sort.Slice` is not stable, and
the input order is the unspecified map iteration order, so the selection is
modelled as this relation rather than as one particular function). -/
def Selected (input out : List fileInfo) : Prop :=
  input.Perm out ∧ out.Pairwise (fun a b => fileLess b a = false)

/-! ### Language formatting (quick mode) -/

/-- Rendering of `fmt.Sprintf("%.1f", pct)`.  The Go percentage is a
`float64`; it is modelled as a rational, and the fixed-point rendering is
modelled for the nonnegative exactly-representable one-decimal values in
scope, where `%.1f` prints the exact value. -/
def formatPct (q : ℚ) : Str :=
  let n : Nat := q.num.toNat * 10 / q.den
  (Nat.repr (n / 10)).data ++ '.' :: (Nat.repr (n % 10)).data

/-- Embedding of `fmt.Sprintf("%s (%.1f%%)", lang, pct)` for one map entry. -/
def renderLang (p : Str × ℚ) : Str :=
  p.1 ++ " (".data ++ formatPct p.2 ++ "%)".data

/-- Lexicographic comparison of strings, the order used by `sort.Strings`
(byte-wise comparison in Go; on the character lists in scope the two agree,
UTF-8 byte order being code-point order). -/
def strLE : Str → Str → Bool
  | [], _ => true
  | _ :: _, [] => false
  | a :: as, b :: bs => if a < b then true else if b < a then false else strLE as bs

/-- The `strLE` order as a relation. -/
def strLEP : Str → Str → Prop := fun a b => strLE a b = true

instance : DecidableRel strLEP := fun a b => instDecidableEqBool (strLE a b) true

instance : IsTotal Str strLEP := by
  constructor
  intro a
  induction a with
  | nil => intro b; left; rfl
  | cons x as ih =>
      intro b
      cases b with
      | nil => right; rfl
      | cons y bs =>
          show (strLE (x :: as) (y :: bs) = true) ∨ (strLE (y :: bs) (x :: as) = true)
          simp only [strLE]
          rcases lt_trichotomy x y with h | h | h
          · left
            rw [if_pos h]
          · subst h
            simp only [if_neg (lt_irrefl x)]
            exact ih bs
          · right
            rw [if_pos h]

instance : IsTrans Str strLEP := by
  constructor
  intro a
  induction a with
  | nil => intro b c _ _; rfl
  | cons x as ih =>
      intro b c hab hbc
      cases b with
      | nil => exact absurd hab (by simp [strLEP, strLE])
      | cons y bs =>
          cases c with
          | nil => exact absurd hbc (by simp [strLEP, strLE])
          | cons z cs =>
              show strLE (x :: as) (z :: cs) = true
              have hab : strLE (x :: as) (y :: bs) = true := hab
              have hbc : strLE (y :: bs) (z :: cs) = true := hbc
              simp only [strLE] at hab hbc ⊢
              rcases lt_trichotomy x y with hxy | hxy | hxy
              · rcases lt_trichotomy y z with hyz | hyz | hyz
                · rw [if_pos (lt_trans hxy hyz)]
                · subst hyz
                  rw [if_pos hxy]
                · rw [if_neg (asymm hyz), if_pos hyz] at hbc
                  cases hbc
              · subst hxy
                rcases lt_trichotomy x z with hxz | hxz | hxz
                · rw [if_pos hxz]
                · subst hxz
                  simp only [if_neg (lt_irrefl x)] at hab hbc ⊢
                  exact ih bs cs hab hbc
                · rw [if_neg (asymm hxz), if_pos hxz] at hbc
                  cases hbc
              · rw [if_neg (asymm hxy), if_pos hxy] at hab
                cases hab

instance : IsAntisymm Str strLEP := by
  constructor
  intro a
  induction a with
  | nil =>
      intro b _ hba
      cases b with
      | nil => rfl
      | cons y bs => exact absurd hba (by simp [strLEP, strLE])
  | cons x as ih =>
      intro b hab hba
      cases b with
      | nil => exact absurd hab (by simp [strLEP, strLE])
      | cons y bs =>
          have hab : strLE (x :: as) (y :: bs) = true := hab
          have hba : strLE (y :: bs) (x :: as) = true := hba
          simp only [strLE] at hab hba
          rcases lt_trichotomy x y with h | h | h
          · rw [if_neg (asymm h), if_pos h] at hba
            cases hba
          · subst h
            simp only [if_neg (lt_irrefl x)] at hab hba
            rw [ih bs hab hba]
          · rw [if_neg (asymm h), if_pos h] at hab
            cases hab

/-- Embedding of `sort.Strings`.  Since `strLE` is a total, transitive and
antisymmetric order, the sorted permutation of a list is unique, so the
standard library sort is modelled exactly by insertion sort. -/
def sortStrings (l : List Str) : List Str :=
  List.insertionSort strLEP l

/-- Embedding of `formatLanguages` (`openai.go`): render each map entry,
sort the rendered strings, join with a comma.  The input list order stands
for the unspecified Go map iteration order. -/
def formatLanguages (langs : List (Str × ℚ)) : Str :=
  List.intercalate ", ".data (sortStrings (langs.map renderLang))

/-! ### The completion pipeline -/

/-- One invocation of the progress callback: stage, current, total,
response text. -/
abbrev Event := Str × Nat × Nat × Str

/-- Errors returned by `Analyze`: the quick path returns the completion
error unwrapped; the detailed path wraps a chunk failure with its 1-based
chunk index (`failed to analyze chunk %d`), and a reduction failure with
`failed to generate summary`. -/
inductive AErr (E : Type) where
  | plain : E → AErr E
  | chunkFailed : Nat → E → AErr E
  | summaryFailed : E → AErr E
deriving DecidableEq

/-- Result of one `Analyze` run.  `ok` carries the `Description` field of
`AnalyzeOutput` (the remaining fields are hardcoded empty in the source);
`outOfRange` marks the run that reaches the `descriptions[0]` access with
an empty `descriptions` slice, which panics in Go instead of returning. -/
inductive Outcome (E : Type) where
  | ok : Str → Outcome E
  | err : AErr E → Outcome E
  | outOfRange : Outcome E
deriving DecidableEq

/-- Observable behaviour of one `Analyze` run: the progress events emitted,
the trace of prompts passed to `makeRequest` (the `Complete` calls), in
order, and the outcome. -/
structure RunResult (E : Type) where
  events : List Event
  trace : List Str
  result : Outcome E
deriving DecidableEq

/-- The `progress("Processing files", i+1, len(files), "")` events of the
chunking loop.  They are emitted once per file at the top of each iteration
and do not depend on the chunking state, so they are modelled separately
from the chunk computation. -/
def processingEvents (n : Nat) : List Event :=
  (List.range n).map fun i => ("Processing files".data, i + 1, n, ([] : Str))

/-- Embedding of the per-chunk prompt template of the detailed path. -/
def chunkPrompt (c : Str) : Str :=
  "Analyze this part of the codebase. Focus on key components, patterns, and functionality. Be concise:\n\n".data ++ c

/-- Embedding of the reduction prompt: the partial summaries joined with
the literal separator and embedded in the combine template. -/
def summaryPrompt (ds : List Str) : Str :=
  "Combine these analysis parts into a concise overview focusing on key components and architecture:\n\n".data ++
    List.intercalate "\n\n---\n\n".data ds

/-- Embedding of the per-chunk summarization loop of the detailed path.
`complete` is the external completion capability (`makeRequest`), `n` the
total chunk count and the second list argument the remaining chunks, with
`i` the 1-based index of the first of them.  Returns the events emitted,
the prompt trace, and either the accumulated responses or the failing
1-based index with its error. -/
def summarizeLoop {E : Type} (complete : Str → Except E Str) (n : Nat) :
    List Str → Nat → List Event × List Str × Except (Nat × E) (List Str)
  | [], _ => ([], [], Except.ok [])
  | c :: rest, i =>
    match complete (chunkPrompt c) with
    | Except.error e =>
        ([("Analyzing chunks".data, i, n, ([] : Str))], [chunkPrompt c],
          Except.error (i, e))
    | Except.ok r =>
        let t := summarizeLoop complete n rest (i + 1)
        (("Analyzing chunks".data, i, n, ([] : Str)) ::
            ("Analysis response".data, i, n, r) :: t.1,
          chunkPrompt c :: t.2.1,
          match t.2.2 with
          | Except.error x => Except.error x
          | Except.ok ds => Except.ok (r :: ds))

/-- Embedding of the detailed path of `Analyze` after the `sort.Slice`
call: chunk the selected files with the constant `maxChunkSize = 1500`,
summarize every chunk, and if more than one summary was produced issue one
reduction call; finally read `descriptions[0]`, which in Go panics with an
index-out-of-range error when `descriptions` is empty. -/
def analyzeDetailed {E : Type} (complete : Str → Except E Str)
    (files : List fileInfo) : RunResult E :=
  let chunks := analyzeChunks files 1500
  let s := summarizeLoop complete chunks.length chunks 1
  match s.2.2 with
  | Except.error ke =>
      ⟨processingEvents files.length ++ s.1, s.2.1,
        Outcome.err (AErr.chunkFailed ke.1 ke.2)⟩
  | Except.ok descriptions =>
      if 1 < descriptions.length then
        match complete (summaryPrompt descriptions) with
        | Except.error e =>
            ⟨processingEvents files.length ++ s.1 ++
                [("Generating summary".data, 0, 1, ([] : Str))],
              s.2.1 ++ [summaryPrompt descriptions],
              Outcome.err (AErr.summaryFailed e)⟩
        | Except.ok finalResponse =>
            ⟨processingEvents files.length ++ s.1 ++
                [("Generating summary".data, 0, 1, ([] : Str)),
                  ("Final summary".data, 1, 1, finalResponse)],
              s.2.1 ++ [summaryPrompt descriptions],
              Outcome.ok finalResponse⟩
      else
        match descriptions with
        | [] => ⟨processingEvents files.length ++ s.1, s.2.1, Outcome.outOfRange⟩
        | d :: _ => ⟨processingEvents files.length ++ s.1, s.2.1, Outcome.ok d⟩

/-- Embedding of the quick prompt template of `Analyze`, with the two
substitution points filled by the directory structure and the formatted
language listing. -/
def quickPrompt (dirStructure : Str) (languages : List (Str × ℚ)) : Str :=
  "Analyze this codebase and provide a quick overview:\n\nDirectory Structure:\n".data ++
    dirStructure ++ "\n\nLanguages:\n".data ++ formatLanguages languages ++
    "\n\nPlease provide:\n1. A brief description of what this codebase likely does\n2. Main components and their purpose (based on directory structure)\n3. Technologies used (based on file types and languages)\n4. Setup/build system (based on manifest files)\n\nFocus on high-level understanding and keep it concise.".data

/-- Embedding of the quick path of `Analyze` (`input.IsDetailed` false):
one progress event, one completion call, on success a second progress event
carrying the response; a failure is returned to the caller unwrapped. -/
def analyzeQuick {E : Type} (complete : Str → Except E Str)
    (dirStructure : Str) (languages : List (Str × ℚ)) : RunResult E :=
  let p := quickPrompt dirStructure languages
  match complete p with
  | Except.error e =>
      ⟨[("Preparing quick summary".data, 0, 1, ([] : Str))], [p],
        Outcome.err (AErr.plain e)⟩
  | Except.ok response =>
      ⟨[("Preparing quick summary".data, 0, 1, ([] : Str)),
          ("Quick summary".data, 1, 1, response)], [p],
        Outcome.ok response⟩

/-- The corpus of the worked example in the specification:
`main.go` holding ten characters. -/
def mainFile : fileInfo := ⟨"main.go".data, List.replicate 10 'a'⟩

/-- The corpus of the worked example in the specification:
`util.go` holding a single line of two thousand characters. -/
def utilFile : fileInfo := ⟨"util.go".data, List.replicate 2000 'b'⟩

/-! ### Chunk-size invariant (C1) -/

/-- Every byte window produced by the oversized-line fallback has length at
most the window width. -/
theorem chunkEvery_mem_length_le (m : Nat) (line : Str) :
    ∀ w ∈ chunkEvery m line, w.length ≤ m := by
  intro w hw
  simp only [chunkEvery, List.mem_map, List.mem_range] at hw
  obtain ⟨i, -, rfl⟩ := hw
  rw [List.length_take]
  exact min_le_left _ _

/-- Invariant of the `splitLongContent` loop: provided the accumulating
buffer is within the bound, every buffer-flushed chunk is within the bound,
and every window chunk is tagged with an oversized line and is itself
within the bound. -/
theorem slcLoopT_inv (maxSize : Nat) (lines : List Str) :
    ∀ cur : Str, cur.length ≤ maxSize →
      ∀ p ∈ slcLoopT maxSize lines cur,
        (p.1 = none → p.2.length ≤ maxSize) ∧
        (∀ l, p.1 = some l → maxSize < l.length ∧ p.2.length ≤ maxSize) := by
  induction lines with
  | nil =>
      intro cur hcur p hp
      simp only [slcLoopT] at hp
      split at hp
      · simp only [List.mem_singleton] at hp
        subst hp
        exact ⟨fun _ => hcur, by simp⟩
      · simp at hp
  | cons line rest ih =>
      intro cur hcur p hp
      simp only [slcLoopT] at hp
      split at hp
      case isTrue h1 =>
        split at hp
        case isTrue h2 =>
          rcases List.mem_append.1 hp with hp | hp
          · rcases List.mem_append.1 hp with hp | hp
            · split at hp
              · simp only [List.mem_singleton] at hp
                subst hp
                exact ⟨fun _ => hcur, by simp⟩
              · simp at hp
            · obtain ⟨w, hw, rfl⟩ := List.mem_map.1 hp
              refine ⟨by simp, fun l hl => ?_⟩
              obtain rfl : line = l := by simpa using hl
              exact ⟨h2, chunkEvery_mem_length_le _ _ _ hw⟩
          · exact ih [] (by simp) p hp
        case isFalse h2 =>
          rcases List.mem_append.1 hp with hp | hp
          · split at hp
            · simp only [List.mem_singleton] at hp
              subst hp
              exact ⟨fun _ => hcur, by simp⟩
            · simp at hp
          · exact ih line (by omega) p hp
      case isFalse h1 =>
        refine ih _ ?_ p hp
        split
        · simp only [List.length_append, List.length_cons]
          omega
        · omega

/-- Invariant of the chunking loop of `Analyze`: same statement as
`slcLoopT_inv`, at the file level. -/
theorem chunkLoopT_inv (maxChunkSize : Nat) (files : List fileInfo) :
    ∀ cur : Str, cur.length ≤ maxChunkSize →
      ∀ p ∈ chunkLoopT maxChunkSize files cur,
        (p.1 = none → p.2.length ≤ maxChunkSize) ∧
        (∀ l, p.1 = some l → maxChunkSize < l.length ∧ p.2.length ≤ maxChunkSize) := by
  induction files with
  | nil =>
      intro cur hcur p hp
      simp only [chunkLoopT] at hp
      split at hp
      · simp only [List.mem_singleton] at hp
        subst hp
        exact ⟨fun _ => hcur, by simp⟩
      · simp at hp
  | cons f rest ih =>
      intro cur hcur p hp
      simp only [chunkLoopT] at hp
      split at hp
      case isTrue h1 =>
        split at hp
        case isTrue h2 =>
          rcases List.mem_append.1 hp with hp | hp
          · rcases List.mem_append.1 hp with hp | hp
            · split at hp
              · simp only [List.mem_singleton] at hp
                subst hp
                exact ⟨fun _ => hcur, by simp⟩
              · simp at hp
            · exact slcLoopT_inv _ _ [] (by simp) p hp
          · exact ih [] (by simp) p hp
        case isFalse h2 =>
          rcases List.mem_append.1 hp with hp | hp
          · split at hp
            · simp only [List.mem_singleton] at hp
              subst hp
              exact ⟨fun _ => hcur, by simp⟩
            · simp at hp
          · exact ih _ (by omega) p hp
      case isFalse h1 =>
        exact ih _ (by simp only [List.length_append]; omega) p hp

/-- C1: for every corpus and every positive `maxChunkSize`, every chunk the
detailed-analysis chunker produces other than the byte windows of the
oversized-line fallback has length at most `maxChunkSize`, and the fallback
is only ever taken for a line strictly longer than `maxChunkSize`. -/
theorem chunk_size_invariant (files : List fileInfo) (maxChunkSize : Nat)
    (hpos : 0 < maxChunkSize) :
    ∀ p ∈ analyzeChunksT files maxChunkSize,
      (p.1 = none → p.2.length ≤ maxChunkSize) ∧
      (∀ l, p.1 = some l → maxChunkSize < l.length) := by
  intro p hp
  have h := chunkLoopT_inv maxChunkSize files [] (by simp) p hp
  exact ⟨h.1, fun l hl => (h.2 l hl).1⟩

/-- Witness for C1 at a concrete corpus and bound where both the buffered
path and the oversized-line fallback fire. -/
theorem chunk_size_invariant_witness :
    0 < 3 ∧
      ∀ p ∈ analyzeChunksT [⟨"m".data, "hi".data⟩] 3,
        (p.1 = none → p.2.length ≤ 3) ∧ (∀ l, p.1 = some l → 3 < l.length) :=
  ⟨by decide, chunk_size_invariant [⟨"m".data, "hi".data⟩] 3 (by decide)⟩

/-! ### Round-trip property (C2) -/

/-- When no rendered unit exceeds the bound, the chunking loop never takes
the splitting fallback, and the emitted chunks concatenate to the buffer
followed by the remaining rendered units. -/
theorem chunkLoopT_join (maxChunkSize : Nat) (files : List fileInfo)
    (h : ∀ f ∈ files, (renderFile f).length ≤ maxChunkSize) :
    ∀ cur : Str,
      ((chunkLoopT maxChunkSize files cur).map Prod.snd).flatten =
        cur ++ (files.map renderFile).flatten := by
  induction files with
  | nil =>
      intro cur
      simp only [chunkLoopT]
      split
      case isTrue hc => simp
      case isFalse hc =>
        obtain rfl : cur = [] := List.length_eq_zero.1 (by omega)
        simp
  | cons f rest ih =>
      intro cur
      have hrest : ∀ g ∈ rest, (renderFile g).length ≤ maxChunkSize :=
        fun g hg => h g (List.mem_cons_of_mem _ hg)
      simp only [chunkLoopT]
      split
      case isTrue h1 =>
        split
        case isTrue h2 =>
          exact absurd (h f (List.mem_cons_self _ _)) (by omega)
        case isFalse h2 =>
          have hrec := ih hrest (renderFile f)
          split
          case isTrue hc => simp [hrec]
          case isFalse hc =>
            obtain rfl : cur = [] := List.length_eq_zero.1 (by omega)
            simp [hrec]
      case isFalse h1 =>
        have hrec := ih hrest (cur ++ renderFile f)
        simp [hrec]

/-- C2 amended: the round-trip holds exactly when no rendered unit is
oversized (the oversized-unit fallback drops the newline separators at its
sub-chunk boundaries, see the counterexample). -/
theorem chunk_roundtrip (files : List fileInfo) (maxChunkSize : Nat)
    (h : ∀ f ∈ files, (renderFile f).length ≤ maxChunkSize) :
    (analyzeChunks files maxChunkSize).flatten = (files.map renderFile).flatten := by
  have hj := chunkLoopT_join maxChunkSize files h []
  simpa [analyzeChunks, analyzeChunksT] using hj

/-- Witness for the amended C2 at a two-file corpus that flushes once. -/
theorem chunk_roundtrip_witness :
    (∀ f ∈ [(⟨"m".data, "hi".data⟩ : fileInfo), ⟨"n".data, "yo".data⟩],
        (renderFile f).length ≤ 15) ∧
      (analyzeChunks [⟨"m".data, "hi".data⟩, ⟨"n".data, "yo".data⟩] 15).flatten =
        ([(⟨"m".data, "hi".data⟩ : fileInfo), ⟨"n".data, "yo".data⟩].map renderFile).flatten :=
  ⟨by decide, chunk_roundtrip [⟨"m".data, "hi".data⟩, ⟨"n".data, "yo".data⟩] 15 (by decide)⟩

/-! ### Evaluation of the chunker on the worked-example corpus -/

/-- The result of `strings.Split` is never the empty list. -/
theorem splitLines_ne_nil (s : Str) : splitLines s ≠ [] := by
  cases s with
  | nil => simp [splitLines]
  | cons c rest =>
      simp only [splitLines]
      split
      · simp
      · split <;> simp

/-- Splitting after a leading newline yields a leading empty segment. -/
theorem splitLines_newline_cons (s : Str) :
    splitLines ('\n' :: s) = [] :: splitLines s := by
  simp only [splitLines]
  cases h : splitLines s with
  | nil => exact absurd h (splitLines_ne_nil s)
  | cons x t => simp

/-- A newline-free prefix is absorbed into the first segment of the split. -/
theorem splitLines_noNL_append (xs : Str) (hx : ∀ c ∈ xs, c ≠ '\n') (ys : Str)
    (hh : Str) (ht : List Str) (hys : splitLines ys = hh :: ht) :
    splitLines (xs ++ ys) = (xs ++ hh) :: ht := by
  induction xs with
  | nil => simpa using hys
  | cons c rest ih =>
      have hc : c ≠ '\n' := hx c (List.mem_cons_self _ _)
      have hr := ih fun d hd => hx d (List.mem_cons_of_mem _ hd)
      simp only [List.cons_append, splitLines]
      rw [show rest.append ys = rest ++ ys from rfl, hr]
      simp [hc]

/-- The rendering of `util.go` in explicit segment form. -/
theorem renderUtil_eq :
    renderFile utilFile =
      "File: util.go".data ++
        ('\n' :: '\n' :: (List.replicate 2000 'b' ++ ['\n', '\n'])) := by
  show "File: ".data ++ ("util.go".data ++ ("\n\n".data ++
      (List.replicate 2000 'b' ++ "\n\n".data))) = _
  rw [← List.append_assoc "File: ".data "util.go".data]
  rw [show ("File: ".data ++ "util.go".data : Str) = "File: util.go".data by decide]
  rfl

/-- The line decomposition of `util.go`'s rendered unit: the header line,
an empty line, the single long line, and two trailing empty lines. -/
theorem splitLines_renderUtil :
    splitLines (renderFile utilFile) =
      ["File: util.go".data, [], List.replicate 2000 'b', [], []] := by
  have hrep : splitLines (List.replicate 2000 'b' ++ ['\n', '\n']) =
      (List.replicate 2000 'b' ++ []) :: [[], []] := by
    refine splitLines_noNL_append _ (fun c hc => ?_) _ _ _ (by decide)
    obtain rfl : c = 'b' := (List.eq_of_mem_replicate hc)
    decide
  rw [renderUtil_eq]
  rw [splitLines_noNL_append "File: util.go".data (by decide) _ []
      [[], List.replicate 2000 'b', [], []] ?_]
  · simp only [List.append_nil]
  · rw [splitLines_newline_cons, splitLines_newline_cons, hrep]
    simp only [List.append_nil]

/-- The byte windows of the single 2000-character line at width 1500. -/
theorem chunkEvery_repl2000 :
    chunkEvery 1500 (List.replicate 2000 'b') =
      [List.replicate 1500 'b', List.replicate 500 'b'] := by
  rw [chunkEvery]
  rw [List.length_replicate]
  norm_num
  rw [show List.range 2 = [0, 1] by decide]
  simp only [List.map, Nat.zero_mul, Nat.one_mul, List.drop_zero,
    List.drop_replicate, List.take_replicate]
  norm_num

/-- Evaluation of `splitLongContent` on `util.go`'s rendered unit: the
header line is flushed as a 14-character chunk, the long line becomes two
byte windows, and the trailing empty lines leave nothing to flush. -/
theorem slc_renderUtil :
    splitLongContentT (renderFile utilFile) 1500 =
      [(none, "File: util.go\n".data),
        (some (List.replicate 2000 'b'), List.replicate 1500 'b'),
        (some (List.replicate 2000 'b'), List.replicate 500 'b')] := by
  rw [splitLongContentT, splitLines_renderUtil]
  rw [slcLoopT]
  rw [if_neg (by decide)]
  rw [if_neg (by decide)]
  rw [slcLoopT]
  rw [if_neg (by decide)]
  rw [if_pos (by decide)]
  rw [show ("File: util.go".data ++ '\n' :: [] : Str) = "File: util.go\n".data from by decide]
  rw [slcLoopT]
  rw [if_pos (by rw [List.length_replicate]; decide)]
  rw [if_pos (by rw [List.length_replicate]; decide)]
  rw [if_pos (by decide)]
  rw [chunkEvery_repl2000]
  rw [slcLoopT]
  rw [if_neg (by decide)]
  rw [if_neg (by decide)]
  rw [slcLoopT]
  rw [if_neg (by decide)]
  rw [if_neg (by decide)]
  rw [slcLoopT]
  rw [if_neg (by decide)]
  simp only [List.map_cons, List.map_nil, List.cons_append, List.nil_append,
    List.append_nil]

/-- Length of `util.go`'s rendered unit. -/
theorem renderUtil_length : (renderFile utilFile).length = 2017 := by
  rw [renderUtil_eq]
  simp only [List.length_append, List.length_cons, List.length_replicate,
    List.length_nil]

/-- The chunker on the worked-example corpus: `main.go`'s rendering is
flushed whole, then `util.go`'s oversized rendering is split into the
header chunk and two byte windows — four chunks, not three. -/
theorem analyzeChunksT_example :
    analyzeChunksT [mainFile, utilFile] 1500 =
      [(none, renderFile mainFile), (none, "File: util.go\n".data),
        (some (List.replicate 2000 'b'), List.replicate 1500 'b'),
        (some (List.replicate 2000 'b'), List.replicate 500 'b')] := by
  rw [analyzeChunksT]
  rw [chunkLoopT]
  rw [if_neg (by decide)]
  rw [chunkLoopT]
  rw [if_pos (by rw [renderUtil_length]; decide)]
  rw [if_pos (by rw [renderUtil_length]; decide)]
  rw [if_pos (by decide)]
  rw [slc_renderUtil]
  rw [chunkLoopT]
  rw [if_neg (by decide)]
  simp only [List.nil_append, List.append_nil, List.cons_append]

/-- The untagged chunks of the worked-example corpus. -/
theorem analyzeChunks_example :
    analyzeChunks [mainFile, utilFile] 1500 =
      [renderFile mainFile, "File: util.go\n".data,
        List.replicate 1500 'b', List.replicate 500 'b'] := by
  rw [analyzeChunks, analyzeChunksT_example]
  simp only [List.map_cons, List.map_nil]

/-- The chunker on the corpus holding `util.go` alone. -/
theorem analyzeChunksT_util :
    analyzeChunksT [utilFile] 1500 =
      [(none, "File: util.go\n".data),
        (some (List.replicate 2000 'b'), List.replicate 1500 'b'),
        (some (List.replicate 2000 'b'), List.replicate 500 'b')] := by
  rw [analyzeChunksT]
  rw [chunkLoopT]
  rw [if_pos (by rw [renderUtil_length]; decide)]
  rw [if_pos (by rw [renderUtil_length]; decide)]
  rw [if_neg (by decide)]
  rw [slc_renderUtil]
  rw [chunkLoopT]
  rw [if_neg (by decide)]
  simp only [List.nil_append, List.append_nil]

/-- C2 counterexample: on the single-file corpus holding `util.go`, the
split path drops the newline separators, so concatenating the chunks (2014
characters) does not reproduce the rendered corpus (2017 characters). -/
theorem chunk_roundtrip_cex :
    (analyzeChunks [utilFile] 1500).flatten ≠ ([utilFile].map renderFile).flatten := by
  intro h
  have hlen := congrArg List.length h
  have h1 : (analyzeChunks [utilFile] 1500).flatten.length = 2014 := by
    rw [analyzeChunks, analyzeChunksT_util]
    simp only [List.map_cons, List.map_nil, List.flatten_cons, List.flatten_nil,
      List.length_append, List.length_replicate, List.length_nil, List.append_nil]
    decide
  have h2 : ([utilFile].map renderFile).flatten.length = 2017 := by
    simp only [List.map_cons, List.map_nil, List.flatten_cons, List.flatten_nil,
      List.append_nil, renderUtil_length]
  rw [h1, h2] at hlen
  omega

/-! ### Selection ordering (C7) -/

/-- C7: in any ordering `sort.Slice` may produce, entry-point-named files
precede all other files, and within each of the two partitions shorter
content comes first. -/
theorem selection_order (input out : List fileInfo) (h : Selected input out) :
    out.Pairwise (fun a b =>
      (isEntryName b.name = true → isEntryName a.name = true) ∧
      (isEntryName a.name = isEntryName b.name →
        a.content.length ≤ b.content.length)) := by
  refine h.2.imp ?_
  intro a b hab
  unfold fileLess at hab
  by_cases hne : isEntryName b.name ≠ isEntryName a.name
  · rw [if_pos hne] at hab
    constructor
    · intro hb
      rw [hab] at hb
      cases hb
    · intro heq
      exact absurd heq.symm hne
  · rw [if_neg hne] at hab
    push_neg at hne
    constructor
    · intro hb
      rw [← hne]
      exact hb
    · intro _
      have hnl := of_decide_eq_false hab
      omega

/-- Witness for C7 at the worked-example corpus. -/
theorem selection_order_witness :
    Selected [mainFile, utilFile] [mainFile, utilFile] ∧
      ([mainFile, utilFile] : List fileInfo).Pairwise (fun a b =>
        (isEntryName b.name = true → isEntryName a.name = true) ∧
        (isEntryName a.name = isEntryName b.name →
          a.content.length ≤ b.content.length)) :=
  ⟨⟨List.Perm.refl _, by simp [List.pairwise_cons]; decide⟩,
    selection_order _ _ ⟨List.Perm.refl _, by simp [List.pairwise_cons]; decide⟩⟩

/-- A list permutation-equal to a two-element list is one of its two
arrangements. -/
theorem perm_two {α : Type} {x y : α} {l : List α} (h : l.Perm [x, y]) :
    l = [x, y] ∨ l = [y, x] := by
  match l, h.length_eq, h with
  | [a, b], _, h =>
      have ha : a ∈ [x, y] := h.mem_iff.1 (List.mem_cons_self _ _)
      rcases List.mem_pair.1 ha with rfl | rfl
      · left
        have hb : [b].Perm [y] := (List.perm_cons a).1 h
        rw [List.perm_singleton.1 hb]
      · right
        have hswap : [a, b].Perm [a, x] := h.trans (List.Perm.swap _ _ _)
        have hb : [b].Perm [x] := (List.perm_cons a).1 hswap
        rw [List.perm_singleton.1 hb]

/-- On the worked-example corpus the `sort.Slice` contract pins the
selected order: `main.go` (entry point) first. -/
theorem selected_example (input out : List fileInfo)
    (hin : input.Perm [mainFile, utilFile]) (hsel : Selected input out) :
    out = [mainFile, utilFile] := by
  have hperm : out.Perm [mainFile, utilFile] := hsel.1.symm.trans hin
  rcases perm_two hperm with rfl | h2
  · rfl
  · exfalso
    have hp := hsel.2
    rw [h2] at hp
    have := List.rel_of_pairwise_cons hp (List.mem_cons_self _ _)
    rw [show fileLess mainFile utilFile = true from by decide] at this
    cases this

/-! ### The summarization loop and call counting (C4, C5, C6, C10) -/

/-- When every completion call succeeds, the summarization loop issues one
call per chunk, in order, and collects the responses in order. -/
theorem summarizeLoop_allOk {E : Type} (complete : Str → Except E Str) (f : Str → Str)
    (hc : ∀ p, complete p = Except.ok (f p)) (n : Nat) :
    ∀ (chunks : List Str) (i : Nat),
      (summarizeLoop complete n chunks i).2.1 = chunks.map chunkPrompt ∧
      (summarizeLoop complete n chunks i).2.2 =
        Except.ok (chunks.map fun c => f (chunkPrompt c)) := by
  intro chunks
  induction chunks with
  | nil => intro i; simp [summarizeLoop]
  | cons c rest ih =>
      intro i
      simp only [summarizeLoop, hc (chunkPrompt c)]
      have h1 := (ih (i + 1)).1
      have h2 := (ih (i + 1)).2
      simp [h1, h2]

/-- When the calls for a prefix of the chunks succeed and the next call
fails, the loop issues exactly the calls for that prefix and the failing
chunk, and aborts with the failing chunk's 1-based index. -/
theorem summarizeLoop_failAt {E : Type} (complete : Str → Except E Str)
    (c : Str) (e : E) (hfail : complete (chunkPrompt c) = Except.error e) (n : Nat) :
    ∀ pre : List Str, (∀ x ∈ pre, ∃ s, complete (chunkPrompt x) = Except.ok s) →
      ∀ (post : List Str) (i : Nat),
        (summarizeLoop complete n (pre ++ c :: post) i).2.1 =
            (pre ++ [c]).map chunkPrompt ∧
          (summarizeLoop complete n (pre ++ c :: post) i).2.2 =
            Except.error (i + pre.length, e) := by
  intro pre
  induction pre with
  | nil =>
      intro _ post i
      simp [summarizeLoop, hfail]
  | cons x rest ih =>
      intro hok post i
      obtain ⟨s, hs⟩ := hok x (List.mem_cons_self _ _)
      simp only [List.cons_append, summarizeLoop, hs]
      have h := ih (fun y hy => hok y (List.mem_cons_of_mem _ hy)) post (i + 1)
      refine ⟨by simp [h.1], ?_⟩
      rw [show rest.append (c :: post) = rest ++ c :: post from rfl, h.2]
      simp
      omega

/-- C4: a run whose chunker yields exactly one chunk issues exactly one
completion call and, when that call succeeds, returns its response text
unchanged as the description (no reduction call). -/
theorem single_chunk_single_call {E : Type} (complete : Str → Except E Str)
    (files : List fileInfo) (c : Str) (h : analyzeChunks files 1500 = [c]) :
    (analyzeDetailed complete files).trace = [chunkPrompt c] ∧
      ∀ s, complete (chunkPrompt c) = Except.ok s →
        (analyzeDetailed complete files).result = Outcome.ok s := by
  cases hcc : complete (chunkPrompt c) with
  | error e =>
      constructor
      · simp [analyzeDetailed, h, summarizeLoop, hcc]
      · intro s hs
        simp at hs
  | ok r =>
      constructor
      · simp [analyzeDetailed, h, summarizeLoop, hcc]
      · intro s hs
        injection hs with hrs
        subst hrs
        simp [analyzeDetailed, h, summarizeLoop, hcc]

/-- Witness for C4 at a one-file corpus whose rendering fits one chunk. -/
theorem single_chunk_single_call_witness :
    analyzeChunks [(⟨"m".data, "hi".data⟩ : fileInfo)] 1500 =
        [renderFile ⟨"m".data, "hi".data⟩] ∧
      (analyzeDetailed (E := Unit) (fun _ => Except.ok "s".data)
            [⟨"m".data, "hi".data⟩]).trace =
        [chunkPrompt (renderFile ⟨"m".data, "hi".data⟩)] ∧
      (analyzeDetailed (E := Unit) (fun _ => Except.ok "s".data)
            [⟨"m".data, "hi".data⟩]).result = Outcome.ok "s".data :=
  ⟨by decide,
    (single_chunk_single_call (E := Unit) (fun _ => Except.ok "s".data)
      [⟨"m".data, "hi".data⟩] (renderFile ⟨"m".data, "hi".data⟩) (by decide)).1,
    (single_chunk_single_call (E := Unit) (fun _ => Except.ok "s".data)
      [⟨"m".data, "hi".data⟩] (renderFile ⟨"m".data, "hi".data⟩) (by decide)).2 _ rfl⟩

/-- All-success run of the detailed path with more than one chunk: the
prompt trace is one wrapped prompt per chunk followed by the single
reduction prompt. -/
theorem detailed_allOk_calls {E : Type} (complete : Str → Except E Str)
    (f : Str → Str) (hc : ∀ p, complete p = Except.ok (f p))
    (files : List fileInfo) (hN : 1 < (analyzeChunks files 1500).length) :
    (analyzeDetailed complete files).trace =
        (analyzeChunks files 1500).map chunkPrompt ++
          [summaryPrompt ((analyzeChunks files 1500).map fun c => f (chunkPrompt c))] ∧
      (analyzeDetailed complete files).trace.length =
        (analyzeChunks files 1500).length + 1 := by
  have hl := summarizeLoop_allOk complete f hc (analyzeChunks files 1500).length
    (analyzeChunks files 1500) 1
  have htr :
      (analyzeDetailed complete files).trace =
        (analyzeChunks files 1500).map chunkPrompt ++
          [summaryPrompt ((analyzeChunks files 1500).map fun c => f (chunkPrompt c))] := by
    simp only [analyzeDetailed]
    rw [hl.2]
    simp only [List.length_map]
    rw [if_pos hN]
    rw [hc (summaryPrompt ((analyzeChunks files 1500).map fun c => f (chunkPrompt c)))]
    simp [hl.1]
  refine ⟨htr, ?_⟩
  rw [htr]
  simp [List.length_append, List.length_map]

/-- C5: when the chunker yields more than one chunk and every completion
call succeeds, the run issues exactly one call per chunk followed by
exactly one reduction call, N + 1 calls in total. -/
theorem multi_chunk_call_count {E : Type} (complete : Str → Except E Str)
    (f : Str → Str) (hc : ∀ p, complete p = Except.ok (f p))
    (files : List fileInfo) (hN : 1 < (analyzeChunks files 1500).length) :
    (analyzeDetailed complete files).trace =
        (analyzeChunks files 1500).map chunkPrompt ++
          [summaryPrompt ((analyzeChunks files 1500).map fun c => f (chunkPrompt c))] ∧
      (analyzeDetailed complete files).trace.length =
        (analyzeChunks files 1500).length + 1 :=
  detailed_allOk_calls complete f hc files hN

/-- Witness for C5 at the four-chunk worked-example corpus. -/
theorem multi_chunk_call_count_witness :
    (analyzeDetailed (E := Unit) (fun p => Except.ok p) [mainFile, utilFile]).trace.length =
      (analyzeChunks [mainFile, utilFile] 1500).length + 1 :=
  (multi_chunk_call_count (E := Unit) (fun p => Except.ok p) (fun p => p) (fun _ => rfl)
    [mainFile, utilFile] (by rw [analyzeChunks_example]; decide)).2

/-- C6: if the call for chunk `k` (1-based) is the first to fail, the run
issues no further chunk call, no reduction call, and returns the error
wrapped with index `k`. -/
theorem first_failure_aborts {E : Type} (complete : Str → Except E Str)
    (files : List fileInfo) (pre post : List Str) (c : Str) (e : E)
    (hchunks : analyzeChunks files 1500 = pre ++ c :: post)
    (hok : ∀ x ∈ pre, ∃ s, complete (chunkPrompt x) = Except.ok s)
    (hfail : complete (chunkPrompt c) = Except.error e) :
    (analyzeDetailed complete files).trace = (pre ++ [c]).map chunkPrompt ∧
      (analyzeDetailed complete files).result =
        Outcome.err (AErr.chunkFailed (pre.length + 1) e) := by
  have hl := summarizeLoop_failAt complete c e hfail
    (analyzeChunks files 1500).length pre hok post 1
  rw [hchunks] at hl
  have hl1 := hl.1
  simp only [List.length_append, List.length_cons] at hl1
  simp only [analyzeDetailed, hchunks]
  rw [hl.2]
  refine ⟨by simp [hl1], ?_⟩
  simp
  omega

/-- Witness for C6: the call for the first chunk of the worked-example
corpus fails, so only that single call is issued. -/
theorem first_failure_aborts_witness :
    (analyzeDetailed
          (fun p => if p = chunkPrompt (renderFile mainFile) then Except.error ()
            else Except.ok p)
          [mainFile, utilFile]).trace =
        (([] : List Str) ++ [renderFile mainFile]).map chunkPrompt ∧
      (analyzeDetailed
          (fun p => if p = chunkPrompt (renderFile mainFile) then Except.error ()
            else Except.ok p)
          [mainFile, utilFile]).result =
        Outcome.err (AErr.chunkFailed ((List.length ([] : List Str)) + 1) ()) :=
  first_failure_aborts _ [mainFile, utilFile] [] ["File: util.go\n".data,
      List.replicate 1500 'b', List.replicate 500 'b']
    (renderFile mainFile) () (by rw [analyzeChunks_example]; rfl) (by simp) (by simp)

/-- C10: on an empty corpus the detailed path reaches `descriptions[0]`
with an empty slice: no completion call is made, no error value is
returned, and the run ends in the out-of-range access. -/
theorem empty_corpus_out_of_range {E : Type} (complete : Str → Except E Str) :
    analyzeDetailed complete ([] : List fileInfo) =
      ⟨[], [], Outcome.outOfRange⟩ := by
  simp [analyzeDetailed, analyzeChunks, analyzeChunksT, chunkLoopT, summarizeLoop,
    processingEvents]

/-! ### Quick mode (C8) -/

/-- C8: the quick path issues exactly one completion call; on success it
reports progress exactly twice with the documented arguments and returns
the response text; on failure it returns the error unwrapped. -/
theorem quick_mode_contract {E : Type} (complete : Str → Except E Str)
    (dirStructure : Str) (languages : List (Str × ℚ)) :
    (analyzeQuick complete dirStructure languages).trace =
        [quickPrompt dirStructure languages] ∧
      (∀ s, complete (quickPrompt dirStructure languages) = Except.ok s →
        (analyzeQuick complete dirStructure languages).events =
            [("Preparing quick summary".data, 0, 1, ([] : Str)),
              ("Quick summary".data, 1, 1, s)] ∧
          (analyzeQuick complete dirStructure languages).result = Outcome.ok s) ∧
      (∀ e, complete (quickPrompt dirStructure languages) = Except.error e →
        (analyzeQuick complete dirStructure languages).events =
            [("Preparing quick summary".data, 0, 1, ([] : Str))] ∧
          (analyzeQuick complete dirStructure languages).result =
            Outcome.err (AErr.plain e)) := by
  cases hq : complete (quickPrompt dirStructure languages) with
  | error e =>
      refine ⟨by simp [analyzeQuick, hq], fun s hs => ?_, fun d hd => ?_⟩
      · simp at hs
      · injection hd with hed
        subst hed
        simp [analyzeQuick, hq]
  | ok r =>
      refine ⟨by simp [analyzeQuick, hq], fun s hs => ?_, fun d hd => ?_⟩
      · injection hs with hrs
        subst hrs
        simp [analyzeQuick, hq]
      · simp at hd

/-- Witness for C8 with a completion stub that always succeeds. -/
theorem quick_mode_contract_witness :
    (analyzeQuick (E := Unit) (fun _ => Except.ok "hi".data) "d".data []).events =
        [("Preparing quick summary".data, 0, 1, ([] : Str)),
          ("Quick summary".data, 1, 1, "hi".data)] ∧
      (analyzeQuick (E := Unit) (fun _ => Except.ok "hi".data) "d".data []).result =
        Outcome.ok "hi".data :=
  (quick_mode_contract (E := Unit) (fun _ => Except.ok "hi".data) "d".data []).2.1
    "hi".data rfl

/-! ### The worked example (C3) -/

/-- C3 counterexample: on the worked-example corpus the pipeline produces
four chunks (not three) and, with every call succeeding, issues five
completion calls (not four): the header line of `util.go`'s rendering
survives as a chunk of its own before the two byte windows. -/
theorem example_pipeline_cex :
    (analyzeChunks [mainFile, utilFile] 1500).length = 4 ∧
      (analyzeChunks [mainFile, utilFile] 1500).length ≠ 3 ∧
      (analyzeDetailed (E := Unit) (fun p => Except.ok p)
          [mainFile, utilFile]).trace.length = 5 ∧
      (analyzeDetailed (E := Unit) (fun p => Except.ok p)
          [mainFile, utilFile]).trace.length ≠ 4 := by
  have h4 : (analyzeChunks [mainFile, utilFile] 1500).length = 4 := by
    rw [analyzeChunks_example]
    rfl
  have h5 : (analyzeDetailed (E := Unit) (fun p => Except.ok p)
      [mainFile, utilFile]).trace.length = 5 := by
    have h := (detailed_allOk_calls (E := Unit) (fun p => Except.ok p) (fun p => p)
      (fun _ => rfl) [mainFile, utilFile] (by rw [analyzeChunks_example]; decide)).2
    rw [h, h4]
  exact ⟨h4, by omega, h5, by omega⟩

/-- C3 amended: for any map iteration order and any ordering `sort.Slice`
may return, the selection puts `main.go` first; the chunker then emits four
chunks (`main.go`'s rendering, the `util.go` header chunk, and byte windows
of 1500 and 500 characters), and with all calls succeeding the run issues
four chunk-summary calls plus one reduction call, five in total. -/
theorem example_pipeline {E : Type} (complete : Str → Except E Str) (f : Str → Str)
    (hc : ∀ p, complete p = Except.ok (f p)) (input out : List fileInfo)
    (hin : input.Perm [mainFile, utilFile]) (hsel : Selected input out) :
    out = [mainFile, utilFile] ∧
      analyzeChunks out 1500 =
        [renderFile mainFile, "File: util.go\n".data,
          List.replicate 1500 'b', List.replicate 500 'b'] ∧
      (analyzeDetailed complete out).trace =
        (analyzeChunks out 1500).map chunkPrompt ++
          [summaryPrompt ((analyzeChunks out 1500).map fun c => f (chunkPrompt c))] ∧
      (analyzeDetailed complete out).trace.length = 5 := by
  obtain rfl := selected_example input out hin hsel
  have h := detailed_allOk_calls complete f hc [mainFile, utilFile]
    (by rw [analyzeChunks_example]; decide)
  refine ⟨rfl, analyzeChunks_example, h.1, ?_⟩
  rw [h.2, analyzeChunks_example]
  rfl

/-- Witness for the amended C3 with the identity completion stub. -/
theorem example_pipeline_witness :
    ([mainFile, utilFile] : List fileInfo) = [mainFile, utilFile] ∧
      analyzeChunks [mainFile, utilFile] 1500 =
        [renderFile mainFile, "File: util.go\n".data,
          List.replicate 1500 'b', List.replicate 500 'b'] ∧
      (analyzeDetailed (E := Unit) (fun p => Except.ok p) [mainFile, utilFile]).trace =
        (analyzeChunks [mainFile, utilFile] 1500).map chunkPrompt ++
          [summaryPrompt ((analyzeChunks [mainFile, utilFile] 1500).map
            fun c => (fun p => p) (chunkPrompt c))] ∧
      (analyzeDetailed (E := Unit) (fun p => Except.ok p)
          [mainFile, utilFile]).trace.length = 5 :=
  example_pipeline (E := Unit) (fun p => Except.ok p) (fun p => p) (fun _ => rfl)
    [mainFile, utilFile] [mainFile, utilFile] (List.Perm.refl _)
    ⟨List.Perm.refl _, by simp [List.pairwise_cons]; decide⟩

/-! ### Language formatting (C9) -/

/-- Since the rendered entries are sorted with a total, transitive and
antisymmetric order before joining, the output is independent of the map
iteration order. -/
theorem formatLanguages_perm (l₁ l₂ : List (Str × ℚ)) (h : l₁.Perm l₂) :
    formatLanguages l₁ = formatLanguages l₂ := by
  unfold formatLanguages sortStrings
  congr 1
  exact List.eq_of_perm_of_sorted
    (((List.perm_insertionSort _ _).trans (h.map renderLang)).trans
      (List.perm_insertionSort _ _).symm)
    (List.sorted_insertionSort strLEP _)
    (List.sorted_insertionSort strLEP _)

/-- C9: the quick-mode language listing renders each entry, joins the
rendered strings in lexical order with a comma separator, independently of
map iteration order; on the example map it yields the documented string
from either iteration order. -/
theorem format_languages_example :
    (∀ l₁ l₂ : List (Str × ℚ), l₁.Perm l₂ → formatLanguages l₁ = formatLanguages l₂) ∧
      formatLanguages [("Go".data, 70), ("Python".data, 30)] =
        "Go (70.0%), Python (30.0%)".data ∧
      formatLanguages [("Python".data, 30), ("Go".data, 70)] =
        "Go (70.0%), Python (30.0%)".data :=
  ⟨formatLanguages_perm, by decide, by decide⟩

/-- Witness for C9: the permutation-independence part applied to the two
iteration orders of the example map. -/
theorem format_languages_example_witness :
    formatLanguages [("Go".data, 70), ("Python".data, 30)] =
      formatLanguages [("Python".data, 30), ("Go".data, 70)] :=
  format_languages_example.1 _ _ (List.Perm.swap _ _ _)

end RepoSage
